import Mathlib

/-!
Verification of the cycle-identification and unit-cost engine of this
repository (file `src/app.py`) against its natural-language specification.

The Python functions `analyze_cycle` and `process_data` are shallowly
embedded below.  Timestamps are modelled as minutes (a natural number);
a calendar day is `time / 1440`, ten hours are 600 minutes and the
two-day detection window spans `2 * 1440` minutes.  Temperatures, gas
meter readings and charge weights are rationals; a pandas `NaN` cell
(produced by `errors='coerce'`) is modelled as `none`, and the pandas
rule that every comparison against `NaN` is false is reflected in
`tempLE` and `isHolding` returning `false` at `none`.
-/

attribute [local semireducible] Rat.sub Rat.add Rat.mul Rat.inv

namespace Press

/-- One row of the normalized sensor frame (`일시`, `온도`, `가스지침`) after
`dropna(subset=['일시'])`: the timestamp is present, temperature and gas
reading may still be `NaN` (`none`). -/
structure Sample where
  time : ℕ
  temp : Option ℚ
  gas  : Option ℚ
deriving DecidableEq, Repr

/-- One raw sensor row before normalization: any of the three cells may be
null/unparseable (`pd.to_datetime`/`pd.to_numeric` with `errors='coerce'`). -/
structure RawSample where
  time : Option ℕ
  temp : Option ℚ
  gas  : Option ℚ
deriving DecidableEq, Repr

/-- One normalized production record (`일자`, `장입량`), rows with an
unparseable date or weight having been dropped (`dropna`). -/
structure ProdRec where
  date   : ℕ
  weight : ℚ
deriving DecidableEq, Repr

/-- Comparison `daily_data['온도'] <= c` for one row: false when the temperature is
`NaN`, as in pandas. -/
def tempLE (s : Sample) (c : ℚ) : Bool :=
  match s.temp with
  | some v => decide (v ≤ c)
  | none => false

/-- Line 67: `(온도 >= 1230) & (온도 <= 1270)`; false on `NaN`. -/
def isHolding (s : Sample) : Bool :=
  match s.temp with
  | some v => decide (1230 ≤ v) && decide (v ≤ 1270)
  | none => false

/-- Lines 70-76: the run-length grouping produced by
`(is_holding != is_holding.shift()).cumsum()` followed by `groupby`:
maximal runs of consecutive elements with the same classification, in
input order.  (Structural right fold; the decomposition of a list into
maximal runs is unique, so this is the pandas grouping.) -/
def groupRuns (f : α → Bool) : List α → List (List α)
  | [] => []
  | x :: xs =>
    match groupRuns f xs with
    | [] => [[x]]
    | [] :: rs => [x] :: rs
    | (y :: r) :: rs =>
      if f x == f y then (x :: y :: r) :: rs else [x] :: (y :: r) :: rs

/-- Classification of a run (the classification of its first row). -/
def runHead (f : α → Bool) : List α → Bool
  | [] => false
  | x :: _ => f x

/-- Whether a run of the boolean series is an in-band (`is_holding`) run. -/
def runInBand : List Sample → Bool := runHead isHolding

/-- The timestamps of a run. -/
def runTimes (r : List Sample) : List ℕ := r.map (·.time)

/-- Maximum of a list of times (pandas `.max()`; groups are nonempty). -/
def listMax : List ℕ → ℕ
  | [] => 0
  | x :: xs => max x (listMax xs)

/-- Minimum of a list of times (pandas `.min()`; groups are nonempty). -/
def listMin : List ℕ → ℕ
  | [] => 0
  | [x] => x
  | x :: y :: ys => min x (listMin (y :: ys))

/-- Line 77: `duration = group['일시'].max() - group['일시'].min()`. -/
def runSpan (r : List Sample) : ℕ := listMax (runTimes r) - listMin (runTimes r)

/-- Line 79: `group['일시'].max()`, the run's last sample time. -/
def runLastTime (r : List Sample) : ℕ := listMax (runTimes r)

/-- Line 78: the run qualifies when it is in-band and spans at least
ten hours (600 minutes). -/
def runQualifies (r : List Sample) : Bool :=
  runInBand r && decide (600 ≤ runSpan r)

/-- Lines 73-80: iterate over the in-band groups in time order and stop at
the first whose duration is at least ten hours; its `max` time is the
holding end. -/
def findHoldingEnd (runs : List (List Sample)) : Option ℕ :=
  ((runs.filter runInBand).find? (fun r => decide (600 ≤ runSpan r))).map runLastTime

/-- Lines 56-59: the first row with temperature at most 600. -/
def startSample (d : List Sample) : Option Sample :=
  (d.filter (fun s => tempLE s 600)).head?

/-- Line 64: the rows strictly after time `t`. -/
def postStart (d : List Sample) (t : ℕ) : List Sample :=
  d.filter (fun s => decide (t < s.time))

/-- Lines 62-80: holding end time of the series after the start time. -/
def holdingEndTime (d : List Sample) (t : ℕ) : Option ℕ :=
  findHoldingEnd (groupRuns isHolding (postStart d t))

/-- Lines 86-92: the first row strictly after the holding end whose
temperature is at most 900. -/
def endSample (d : List Sample) (h : ℕ) : Option Sample :=
  ((d.filter (fun s => decide (h < s.time))).filter (fun s => tempLE s 900)).head?

/-- The three failure reasons of `analyze_cycle`:
`noStart` = "시작 온도(600도 이하) 없음",
`noHolding` = "유효 홀딩 구간(10시간 이상) 없음",
`noEnd` = "종료 온도(900도 이하) 도달 안 함". -/
inductive CycleErr
  | noStart
  | noHolding
  | noEnd
deriving DecidableEq, Repr

/-- The dictionary returned by `analyze_cycle` on success. -/
structure Cycle where
  startS : Sample
  endS : Sample
  holdingEnd : ℕ
deriving DecidableEq, Repr

instance {ε α : Type} [DecidableEq ε] [DecidableEq α] : DecidableEq (Except ε α) :=
  fun a b =>
    match a, b with
    | .error e, .error f => decidable_of_iff (e = f) (by simp)
    | .error _, .ok _ => isFalse fun h => nomatch h
    | .ok _, .error _ => isFalse fun h => nomatch h
    | .ok x, .ok y => decidable_of_iff (x = y) (by simp)

/-- Lines 48-98: `analyze_cycle(daily_data)`. -/
def analyze_cycle (d : List Sample) : Except CycleErr Cycle :=
  match startSample d with
  | none => .error .noStart
  | some s =>
    match holdingEndTime d s.time with
    | none => .error .noHolding
    | some h =>
      match endSample d h with
      | none => .error .noEnd
      | some e => .ok ⟨s, e, h⟩

/-! ### `process_data` (lines 100-184) -/

/-- Insertion step of the timestamp sort (line 129 `sort_values('일시')`). -/
def insertByTime (s : Sample) : List Sample → List Sample
  | [] => [s]
  | x :: xs => if s.time ≤ x.time then s :: x :: xs else x :: insertByTime s xs

/-- Line 129 `sort_values('일시')`: sort the merged sensor rows by time. -/
def sortByTime : List Sample → List Sample
  | [] => []
  | x :: xs => insertByTime x (sortByTime xs)

/-- Lines 126-129: coerce the three columns, drop the rows whose timestamp
is null (`dropna(subset=['일시'])` — null temperature or gas is kept), and
sort by timestamp. -/
def normalizeSensor (raws : List RawSample) : List Sample :=
  sortByTime (raws.filterMap (fun r => r.time.map (fun t => ⟨t, r.temp, r.gas⟩)))

/-- Column `dt.date`: the calendar day of a sample (minutes to days). -/
def sampleDate (s : Sample) : ℕ := s.time / 1440

/-- Lines 148-151: the two-calendar-day window `[d*1440, (d+2)*1440)`. -/
def windowOf (sensor : List Sample) (d : ℕ) : List Sample :=
  sensor.filter (fun s => decide (d * 1440 ≤ s.time) && decide (s.time < (d + 2) * 1440))

/-- One row of the result table (lines 171-182). -/
structure Result where
  date : ℕ
  startTime : ℕ
  startGas : ℚ
  endTime : ℕ
  endGas : ℚ
  gasUsed : ℚ
  chargeKg : ℚ
  unitCost : ℚ
  verdict : Bool
  holdingEnd : ℕ
deriving DecidableEq, Repr

/-- Exceptions that escape the per-date loop uncaught:
`indexError` is `prod_row.iloc[0]` on an empty selection (line 162),
`nanToInt` is `int(gas_used)` on a `NaN` delta (line 177). -/
inductive RunErr
  | indexError
  | nanToInt
deriving DecidableEq, Repr

/-- Lines 162-182, the evaluation of one detected cycle against its matched
production record: the `continue` on a non-positive charge weight, the
`continue` on a non-positive gas delta, the `int(gas_used)` crash on a `NaN`
delta, and the appended result row. -/
def evalCycle (c : Cycle) (p : ProdRec) (target : ℚ) (d : ℕ) :
    Except RunErr (Option Result) :=
  if p.weight ≤ 0 then .ok none
  else
    match c.endS.gas, c.startS.gas with
    | some eg, some sg =>
      if eg - sg ≤ 0 then .ok none
      else
        .ok (some
          { date := d
            startTime := c.startS.time
            startGas := sg
            endTime := c.endS.time
            endGas := eg
            gasUsed := eg - sg
            chargeKg := p.weight
            unitCost := (eg - sg) / (p.weight / 1000)
            verdict := decide ((eg - sg) / (p.weight / 1000) ≤ target)
            holdingEnd := c.holdingEnd })
    | _, _ => .error .nanToInt

/-- Lines 142-182, one iteration of the per-date loop: `.ok none` when the
date is skipped (`continue` / failed detection), `.ok (some r)` when a
result row is appended, `.error` when the iteration raises. -/
def stepResult (prod : List ProdRec) (sensor : List Sample) (target : ℚ) (d : ℕ) :
    Except RunErr (Option Result) :=
  let w := windowOf sensor d
  if w.isEmpty then .ok none
  else
    match analyze_cycle w with
    | .error _ => .ok none
    | .ok c =>
      match prod.find? (fun p => p.date == d) with
      | none => .error .indexError
      | some p => evalCycle c p target d

/-- Lines 140-182: the per-date loop; an uncaught exception inside one
iteration aborts the whole loop. -/
def processDates (prod : List ProdRec) (sensor : List Sample) (target : ℚ) :
    List ℕ → Except RunErr (List Result)
  | [] => .ok []
  | d :: ds =>
    match stepResult prod sensor target d with
    | .error e => .error e
    | .ok none => processDates prod sensor target ds
    | .ok (some r) => (processDates prod sensor target ds).map (fun rs => r :: rs)

/-- Line 133: the distinct production dates. -/
def prodDates (prod : List ProdRec) : Finset ℕ := (prod.map (·.date)).toFinset

/-- Line 135: the distinct sensor calendar dates. -/
def sensorDates (sensor : List Sample) : Finset ℕ := (sensor.map sampleDate).toFinset

/-- Insertion into an ascending list of dates. -/
def insertAsc (d : ℕ) : List ℕ → List ℕ
  | [] => [d]
  | x :: xs => if d ≤ x then d :: x :: xs else x :: insertAsc d xs

/-- Python `sorted` on a list of dates. -/
def sortAsc : List ℕ → List ℕ
  | [] => []
  | x :: xs => insertAsc x (sortAsc xs)

/-- Line 136: `sorted(list(prod_dates.intersection(sensor_dates)))` — the
ascending list of the distinct dates present on both sides. -/
def commonDates (prod : List ProdRec) (sensor : List Sample) : List ℕ :=
  sortAsc ((prod.map (·.date)).dedup.filter
    (fun d => (sensor.map sampleDate).contains d))

/-- The value returned by `process_data`:
`ok` is `(pd.DataFrame(results), df_sensor)`,
`failNoSensor` is `(None, "센서 데이터 없음")`,
`failNoDateMatch` is `(None, "날짜 매칭 실패")`,
`raised` is an exception escaping the function. -/
inductive ProcOutcome
  | ok (results : List Result) (sensor : List Sample)
  | failNoSensor
  | failNoDateMatch
  | raised (e : RunErr)
deriving DecidableEq, Repr

/-- Lines 100-184: `process_data` on already-normalized production records
and the raw rows of the uploaded sensor files. -/
def process_data (prod : List ProdRec) (files : List (List RawSample)) (target : ℚ) :
    ProcOutcome :=
  if files.isEmpty then .failNoSensor
  else
    let sensor := normalizeSensor files.flatten
    if (commonDates prod sensor).isEmpty then .failNoDateMatch
    else
      match processDates prod sensor target (commonDates prod sensor) with
      | .ok rs => .ok rs sensor
      | .error e => .raised e

/-! ### Derived notions used in the statements -/

/-- Timestamp ordering of samples (the invariant established by
`sort_values('일시')`). -/
def timeLE (a b : Sample) : Prop := a.time ≤ b.time

instance : DecidableRel timeLE := fun a b => inferInstanceAs (Decidable (a.time ≤ b.time))

/-- The time of a run's first sample. -/
def firstTimeOf : List Sample → ℕ
  | [] => 0
  | x :: _ => x.time

/-- The time of a run's last sample. -/
def lastTimeOf : List Sample → ℕ
  | [] => 0
  | [x] => x.time
  | _ :: y :: ys => lastTimeOf (y :: ys)

/-! ### Concrete inputs used in witnesses and counterexamples -/

/-- A sorted daily series whose holding plateau is interrupted by one
null-temperature sample at minute 360. -/
def sWithNull : List Sample :=
  [⟨0, some 500, some 0⟩, ⟨60, some 1250, some 1⟩, ⟨360, none, some 2⟩,
   ⟨720, some 1250, some 3⟩, ⟨800, some 850, some 4⟩]

/-- The same series with the null-temperature sample removed. -/
def sNoNull : List Sample := sWithNull.filter (fun s => s.temp.isSome && s.gas.isSome)

/-- One raw row with a timestamp but a null temperature. -/
def rawNullTemp : List RawSample := [⟨some 360, none, some 2⟩]

/-- One production record: day 0, 1000 kg charged. -/
def prodA : List ProdRec := [⟨0, 1000⟩]

/-- Two production records on the same day 0 (a duplicate date). -/
def prodDup : List ProdRec := [⟨0, 2000⟩, ⟨0, 500⟩]

/-- A sensor file with a complete cycle on day 0 whose start sample has a
null gas reading. -/
def filesNullGas : List (List RawSample) :=
  [[⟨some 0, some 500, none⟩, ⟨some 60, some 1250, some 1⟩,
    ⟨some 720, some 1250, some 2⟩, ⟨some 800, some 850, some 3000⟩]]

/-- A sensor file with a complete cycle on day 0 and all gas readings
present: start 500° at minute 0, holding 1250° from minute 60 to 720
(an 11-hour plateau), 850° at minute 800. -/
def filesGood : List (List RawSample) :=
  [[⟨some 0, some 500, some 100⟩, ⟨some 60, some 1250, some 1000⟩,
    ⟨some 720, some 1250, some 2000⟩, ⟨some 800, some 850, some 3000⟩]]

/-- The normalized sensor series of `filesGood`. -/
def sensorGood : List Sample :=
  [⟨0, some 500, some 100⟩, ⟨60, some 1250, some 1000⟩,
   ⟨720, some 1250, some 2000⟩, ⟨800, some 850, some 3000⟩]

/-- The cycle detected in `sensorGood`. -/
def cycGood : Cycle := ⟨⟨0, some 500, some 100⟩, ⟨800, some 850, some 3000⟩, 720⟩

/-- The result row produced from `prodA` and `filesGood` at target 3000. -/
def resGood : Result := ⟨0, 0, 100, 800, 3000, 2900, 1000, 2900, true, 720⟩

/-- The result row produced from `prodDup` and `filesGood` at target 3000:
the first duplicate record (2000 kg) is used. -/
def resDup : Result := ⟨0, 0, 100, 800, 3000, 2900, 2000, 1450, true, 720⟩

/-- A series with no sample at or below 600°. -/
def sNoStart : List Sample := [⟨10, some 700, some 1⟩]

/-- A series whose only in-band run lasts zero minutes (a plateau far
shorter than ten hours). -/
def sShortHold : List Sample := [⟨0, some 500, some 0⟩, ⟨60, some 1250, some 1⟩]

/-- The series `sShortHold` as an uploaded file. -/
def filesShortHold : List (List RawSample) :=
  [[⟨some 0, some 500, some 0⟩, ⟨some 60, some 1250, some 1⟩]]

/-- The series `sNoStart` as an uploaded file. -/
def filesNoStart : List (List RawSample) := [[⟨some 10, some 700, some 1⟩]]

/-- One production day, day 0, against a sensor day 5: empty intersection,
one date on each side. -/
def filesDay5 : List (List RawSample) := [[⟨some 7200, some 100, some 1⟩]]

/-- Two production days (1 and 2). -/
def prodTwo : List ProdRec := [⟨1, 10⟩, ⟨2, 20⟩]

/-- Three sensor days (10, 20 and 30): empty intersection with `prodTwo`,
two dates on one side and three on the other. -/
def filesThreeDays : List (List RawSample) :=
  [[⟨some 14400, some 1, some 1⟩, ⟨some 28800, some 1, some 1⟩,
    ⟨some 43200, some 1, some 1⟩]]

/-! ## Helper lemmas -/

theorem groupRuns_ne_nil (f : α → Bool) : ∀ (l : List α), ∀ r ∈ groupRuns f l, r ≠ []
  | [] => by simp [groupRuns]
  | x :: xs => by
    have ih := groupRuns_ne_nil f xs
    intro r hr
    rcases h : groupRuns f xs with _ | ⟨_ | ⟨y, r0⟩, rs⟩
    · simp only [groupRuns, h] at hr
      simp only [List.mem_singleton] at hr
      simp [hr]
    · exact absurd rfl (ih [] (by rw [h]; exact List.mem_cons_self ..))
    · simp only [groupRuns, h] at hr
      by_cases hf : f x == f y
      · rw [if_pos hf] at hr
        rcases List.mem_cons.mp hr with h1 | h1
        · simp [h1]
        · exact ih r (by rw [h]; exact List.mem_cons_of_mem _ h1)
      · rw [if_neg hf] at hr
        rcases List.mem_cons.mp hr with h1 | h1
        · simp [h1]
        · exact ih r (by rw [h]; exact h1)

theorem groupRuns_flatten (f : α → Bool) : ∀ (l : List α), (groupRuns f l).flatten = l
  | [] => by simp [groupRuns]
  | x :: xs => by
    have ih := groupRuns_flatten f xs
    rcases h : groupRuns f xs with _ | ⟨_ | ⟨y, r0⟩, rs⟩
    · rw [h] at ih
      simp only [groupRuns, h]
      simp [← ih]
    · exact absurd rfl (groupRuns_ne_nil f xs [] (by rw [h]; exact List.mem_cons_self ..))
    · rw [h] at ih
      simp only [groupRuns, h]
      by_cases hf : f x == f y
      · rw [if_pos hf]
        simp only [List.flatten_cons] at ih ⊢
        simp [ih]
      · rw [if_neg hf]
        simp only [List.flatten_cons] at ih ⊢
        simp [ih]

theorem groupRuns_head_eq (f : α → Bool) :
    ∀ (l : List α), ∀ r ∈ groupRuns f l, ∀ x ∈ r, f x = runHead f r
  | [] => by simp [groupRuns]
  | x :: xs => by
    have ih := groupRuns_head_eq f xs
    intro r hr z hz
    rcases h : groupRuns f xs with _ | ⟨_ | ⟨y, r0⟩, rs⟩
    · simp only [groupRuns, h, List.mem_singleton] at hr
      subst hr
      simp only [List.mem_singleton] at hz
      simp [hz, runHead]
    · exact absurd rfl (groupRuns_ne_nil f xs [] (by rw [h]; exact List.mem_cons_self ..))
    · simp only [groupRuns, h] at hr
      by_cases hf : f x == f y
      · rw [if_pos hf] at hr
        rcases List.mem_cons.mp hr with h1 | h1
        · subst h1
          rcases List.mem_cons.mp hz with h2 | h2
          · simp [h2, runHead]
          · have := ih (y :: r0) (by rw [h]; exact List.mem_cons_self ..) z h2
            simp only [runHead] at this ⊢
            rw [this]
            exact (eq_of_beq hf).symm
        · exact ih r (by rw [h]; exact List.mem_cons_of_mem _ h1) z hz
      · rw [if_neg hf] at hr
        rcases List.mem_cons.mp hr with h1 | h1
        · subst h1
          simp only [List.mem_singleton] at hz
          simp [hz, runHead]
        · exact ih r (by rw [h]; exact h1) z hz

theorem groupRuns_chain (f : α → Bool) :
    ∀ (l : List α), List.Chain' (fun r r' => runHead f r ≠ runHead f r') (groupRuns f l)
  | [] => by simp [groupRuns]
  | x :: xs => by
    have ih := groupRuns_chain f xs
    rcases h : groupRuns f xs with _ | ⟨_ | ⟨y, r0⟩, rs⟩
    · simp [groupRuns, h]
    · exact absurd rfl (groupRuns_ne_nil f xs [] (by rw [h]; exact List.mem_cons_self ..))
    · rw [h] at ih
      simp only [groupRuns, h]
      by_cases hf : f x == f y
      · rw [if_pos hf]
        rcases rs with _ | ⟨r2, rs'⟩
        · simp
        · rw [List.chain'_cons] at ih ⊢
          refine ⟨?_, ih.2⟩
          simpa [runHead, eq_of_beq hf] using ih.1
      · rw [if_neg hf]
        rw [List.chain'_cons]
        refine ⟨?_, ih⟩
        simp only [runHead]
        exact fun hc => hf (by simp [hc])

theorem groupRuns_pairwise {R : α → α → Prop} (f : α → Bool) (l : List α)
    (h : l.Pairwise R) : ∀ r ∈ groupRuns f l, r.Pairwise R := by
  intro r hr
  have hsub : List.Sublist r (groupRuns f l).flatten := List.sublist_flatten_of_mem hr
  rw [groupRuns_flatten] at hsub
  exact List.Pairwise.sublist hsub h

theorem lastTimeOf_mem : ∀ (l : List Sample), l ≠ [] → ∃ z ∈ l, lastTimeOf l = z.time
  | [], h => absurd rfl h
  | [x], _ => ⟨x, List.mem_singleton.mpr rfl, rfl⟩
  | x :: y :: ys, _ => by
    obtain ⟨z, hz, he⟩ := lastTimeOf_mem (y :: ys) (by simp)
    exact ⟨z, List.mem_cons_of_mem _ hz, he⟩

theorem listMax_eq_lastTimeOf :
    ∀ (l : List Sample), l ≠ [] → l.Pairwise timeLE → listMax (runTimes l) = lastTimeOf l
  | [], h, _ => absurd rfl h
  | [x], _, _ => by simp [runTimes, listMax, lastTimeOf]
  | x :: y :: ys, _, hp => by
    have ih := listMax_eq_lastTimeOf (y :: ys) (by simp) (List.Pairwise.sublist
      (List.sublist_cons_self x (y :: ys)) hp)
    obtain ⟨z, hz, he⟩ := lastTimeOf_mem (y :: ys) (by simp)
    have hxz : x.time ≤ z.time := List.rel_of_pairwise_cons hp hz
    show max x.time (listMax (runTimes (y :: ys))) = lastTimeOf (x :: y :: ys)
    rw [ih]
    have : lastTimeOf (x :: y :: ys) = lastTimeOf (y :: ys) := rfl
    rw [this, he]
    exact Nat.max_eq_right hxz

theorem listMin_eq_firstTimeOf :
    ∀ (l : List Sample), l ≠ [] → l.Pairwise timeLE → listMin (runTimes l) = firstTimeOf l
  | [], h, _ => absurd rfl h
  | [x], _, _ => by simp [runTimes, listMin, firstTimeOf]
  | x :: y :: ys, _, hp => by
    have ih := listMin_eq_firstTimeOf (y :: ys) (by simp) (List.Pairwise.sublist
      (List.sublist_cons_self x (y :: ys)) hp)
    have hxy : x.time ≤ y.time :=
      List.rel_of_pairwise_cons hp (List.mem_cons_self ..)
    show listMin (x.time :: y.time :: List.map (·.time) ys) = x.time
    have hmin : listMin (x.time :: y.time :: List.map (·.time) ys) =
        min x.time (listMin (y.time :: List.map (·.time) ys)) := rfl
    rw [hmin]
    have : listMin (y.time :: List.map (·.time) ys) = y.time := by
      have : firstTimeOf (y :: ys) = y.time := rfl
      rw [← this]
      exact ih
    rw [this]
    exact Nat.min_eq_left hxy

/-- The head of a filtered sorted list is the earliest element satisfying
the predicate. -/
theorem filter_head_min (q : Sample → Bool) (l : List Sample) (hs : l.Pairwise timeLE)
    (s0 : Sample) (h : (l.filter q).head? = some s0) :
    s0 ∈ l ∧ q s0 = true ∧ ∀ s ∈ l, q s = true → s0.time ≤ s.time := by
  obtain ⟨rest, hrest⟩ := List.head?_eq_some_iff.mp h
  have hmem : s0 ∈ l.filter q := by rw [hrest]; exact List.mem_cons_self ..
  refine ⟨List.mem_of_mem_filter hmem, List.of_mem_filter hmem, ?_⟩
  intro s hsl hq
  have hsf : s ∈ l.filter q := List.mem_filter.mpr ⟨hsl, hq⟩
  rw [hrest] at hsf
  rcases List.mem_cons.mp hsf with h1 | h1
  · exact le_of_eq (congrArg Sample.time h1.symm)
  · exact (List.rel_of_pairwise_cons (hrest ▸ List.Pairwise.filter q hs) h1 : timeLE s0 s)

/-- Inversion of a successful `analyze_cycle`. -/
theorem analyze_cycle_ok (d : List Sample) (c : Cycle) (h : analyze_cycle d = .ok c) :
    startSample d = some c.startS ∧ holdingEndTime d c.startS.time = some c.holdingEnd ∧
      endSample d c.holdingEnd = some c.endS := by
  unfold analyze_cycle at h
  split at h
  · simp at h
  · rename_i s hs
    split at h
    · simp at h
    · rename_i hv hh
      split at h
      · simp at h
      · rename_i e he
        simp only [Except.ok.injEq] at h
        subst h
        exact ⟨hs, hh, he⟩

theorem analyze_noStart_iff (d : List Sample) :
    analyze_cycle d = .error CycleErr.noStart ↔ startSample d = none := by
  constructor
  · intro h
    unfold analyze_cycle at h
    split at h
    · assumption
    · split at h
      · simp at h
      · split at h <;> simp at h
  · intro h
    unfold analyze_cycle
    rw [h]

theorem analyze_cycle_cons (d : List Sample) (s : Sample) (hs : startSample d = some s) :
    analyze_cycle d = (match holdingEndTime d s.time with
      | none => Except.error CycleErr.noHolding
      | some hv =>
        match endSample d hv with
        | none => Except.error CycleErr.noEnd
        | some e => Except.ok ⟨s, e, hv⟩) := by
  unfold analyze_cycle
  rw [hs]

theorem analyze_cycle_cons2 (d : List Sample) (s : Sample) (hv : ℕ)
    (hs : startSample d = some s) (hh : holdingEndTime d s.time = some hv) :
    analyze_cycle d = (match endSample d hv with
      | none => Except.error CycleErr.noEnd
      | some e => Except.ok ⟨s, e, hv⟩) := by
  rw [analyze_cycle_cons d s hs, hh]

theorem analyze_noHolding_iff (d : List Sample) (s : Sample) (hs : startSample d = some s) :
    analyze_cycle d = .error CycleErr.noHolding ↔ holdingEndTime d s.time = none := by
  cases hh : holdingEndTime d s.time
  · constructor
    · intro _; rfl
    · intro _; rw [analyze_cycle_cons d s hs, hh]
  · rename_i hv
    constructor
    · intro h
      rw [analyze_cycle_cons2 d s hv hs hh] at h
      cases he : endSample d hv <;> rw [he] at h <;> simp at h
    · intro h; simp at h

theorem analyze_noEnd_iff (d : List Sample) (s : Sample) (hv : ℕ)
    (hs : startSample d = some s) (hh : holdingEndTime d s.time = some hv) :
    analyze_cycle d = .error CycleErr.noEnd ↔ endSample d hv = none := by
  rw [analyze_cycle_cons2 d s hv hs hh]
  cases he : endSample d hv <;> simp

theorem find?_and (p q : α → Bool) (l : List α) :
    (l.filter p).find? q = l.find? (fun a => p a && q a) := by
  induction l with
  | nil => simp
  | cons x xs ih =>
    by_cases hp : p x
    · rw [List.filter_cons_of_pos hp]
      by_cases hq : q x
      · rw [List.find?_cons_of_pos _ hq, List.find?_cons_of_pos]
        simp [hp, hq]
      · rw [List.find?_cons_of_neg _ (by simp [hq]), List.find?_cons_of_neg, ih]
        simp [hq]
    · rw [List.filter_cons_of_neg hp, List.find?_cons_of_neg, ih]
      simp [hp]

theorem findHoldingEnd_eq (runs : List (List Sample)) :
    findHoldingEnd runs = (runs.find? runQualifies).map runLastTime := by
  unfold findHoldingEnd
  rw [find?_and]
  rfl

theorem startSample_mem {l : List Sample} {s : Sample} (h : startSample l = some s) :
    s ∈ l ∧ tempLE s 600 = true := by
  unfold startSample at h
  obtain ⟨rest, hrest⟩ := List.head?_eq_some_iff.mp h
  have hmem : s ∈ l.filter (fun s => tempLE s 600) := by
    rw [hrest]; exact List.mem_cons_self ..
  exact List.mem_filter.mp hmem

theorem endSample_mem {l : List Sample} {h0 : ℕ} {e : Sample} (h : endSample l h0 = some e) :
    e ∈ l ∧ h0 < e.time ∧ tempLE e 900 = true := by
  unfold endSample at h
  obtain ⟨rest, hrest⟩ := List.head?_eq_some_iff.mp h
  have hmem : e ∈ (l.filter (fun s => decide (h0 < s.time))).filter (fun s => tempLE s 900) := by
    rw [hrest]; exact List.mem_cons_self ..
  obtain ⟨hmem1, hq⟩ := List.mem_filter.mp hmem
  obtain ⟨hmem2, ht⟩ := List.mem_filter.mp hmem1
  exact ⟨hmem2, by simpa using ht, hq⟩

theorem insertAsc_perm (d : ℕ) : ∀ (l : List ℕ), (insertAsc d l).Perm (d :: l)
  | [] => List.Perm.refl _
  | x :: xs => by
    unfold insertAsc
    split
    · exact List.Perm.refl _
    · exact ((insertAsc_perm d xs).cons x).trans (List.Perm.swap d x xs)

theorem sortAsc_perm : ∀ (l : List ℕ), (sortAsc l).Perm l
  | [] => List.Perm.refl _
  | x :: xs => (insertAsc_perm x (sortAsc xs)).trans ((sortAsc_perm xs).cons x)

theorem insertAsc_sorted (d : ℕ) :
    ∀ (l : List ℕ), l.Pairwise (· ≤ ·) → (insertAsc d l).Pairwise (· ≤ ·)
  | [], _ => by simp [insertAsc]
  | x :: xs, h => by
    unfold insertAsc
    split
    · rename_i hle
      refine List.pairwise_cons.mpr ⟨?_, h⟩
      intro y hy
      rcases List.mem_cons.mp hy with h1 | h1
      · exact h1 ▸ hle
      · exact le_trans hle (List.rel_of_pairwise_cons h h1)
    · rename_i hlt
      have hx : x ≤ d := Nat.le_of_lt (Nat.lt_of_not_le hlt)
      refine List.pairwise_cons.mpr ⟨?_, insertAsc_sorted d xs (List.pairwise_cons.mp h).2⟩
      intro y hy
      rcases List.mem_cons.mp ((insertAsc_perm d xs).mem_iff.mp hy) with h1 | h1
      · exact h1 ▸ hx
      · exact List.rel_of_pairwise_cons h h1

theorem sortAsc_sorted : ∀ (l : List ℕ), (sortAsc l).Pairwise (· ≤ ·)
  | [] => by simp [sortAsc]
  | x :: xs => insertAsc_sorted x (sortAsc xs) (sortAsc_sorted xs)

theorem commonDates_perm (prod : List ProdRec) (sensor : List Sample) :
    (commonDates prod sensor).Perm
      ((prod.map (·.date)).dedup.filter (fun d => (sensor.map sampleDate).contains d)) :=
  sortAsc_perm _

theorem commonDates_sorted (prod : List ProdRec) (sensor : List Sample) :
    (commonDates prod sensor).Pairwise (· ≤ ·) :=
  sortAsc_sorted _

theorem commonDates_nodup (prod : List ProdRec) (sensor : List Sample) :
    (commonDates prod sensor).Nodup :=
  ((commonDates_perm prod sensor).nodup_iff).mpr
    (List.Nodup.filter _ (List.nodup_dedup _))

theorem commonDates_mem (prod : List ProdRec) (sensor : List Sample) (d : ℕ) :
    d ∈ commonDates prod sensor ↔
      (∃ p ∈ prod, p.date = d) ∧ ∃ s ∈ sensor, sampleDate s = d := by
  rw [(commonDates_perm prod sensor).mem_iff, List.mem_filter, List.mem_dedup]
  constructor
  · rintro ⟨h1, h2⟩
    obtain ⟨p, hp, he⟩ := List.mem_map.mp h1
    obtain ⟨s, hs, he2⟩ := List.mem_map.mp (List.elem_iff.mp h2)
    exact ⟨⟨p, hp, he⟩, ⟨s, hs, he2⟩⟩
  · rintro ⟨⟨p, hp, he⟩, ⟨s, hs, he2⟩⟩
    exact ⟨List.mem_map.mpr ⟨p, hp, he⟩, List.elem_iff.mpr (List.mem_map.mpr ⟨s, hs, he2⟩)⟩

theorem commonDates_length (prod : List ProdRec) (sensor : List Sample) :
    (commonDates prod sensor).length ≤
      min (prodDates prod).card (sensorDates sensor).card := by
  rw [(commonDates_perm prod sensor).length_eq]
  refine le_min ?_ ?_
  · calc ((prod.map (·.date)).dedup.filter _).length
        ≤ (prod.map (·.date)).dedup.length := List.length_filter_le _ _
      _ = (prodDates prod).card := (List.card_toFinset _).symm
  · set l := (prod.map (·.date)).dedup.filter
        (fun d => (sensor.map sampleDate).contains d) with hl
    have hnd : l.Nodup := List.Nodup.filter _ (List.nodup_dedup _)
    have hsub : l.toFinset ⊆ sensorDates sensor := by
      intro d hd
      rw [List.mem_toFinset, hl, List.mem_filter] at hd
      exact List.mem_toFinset.mpr (List.elem_iff.mp hd.2)
    calc l.length = l.toFinset.card := (List.toFinset_card_of_nodup hnd).symm
      _ ≤ (sensorDates sensor).card := Finset.card_le_card hsub

theorem insertByTime_perm (s : Sample) : ∀ (l : List Sample), (insertByTime s l).Perm (s :: l)
  | [] => List.Perm.refl _
  | x :: xs => by
    unfold insertByTime
    split
    · exact List.Perm.refl _
    · exact ((insertByTime_perm s xs).cons x).trans (List.Perm.swap s x xs)

theorem sortByTime_perm : ∀ (l : List Sample), (sortByTime l).Perm l
  | [] => List.Perm.refl _
  | x :: xs => (insertByTime_perm x (sortByTime xs)).trans ((sortByTime_perm xs).cons x)

theorem mem_normalizeSensor (raws : List RawSample) (s : Sample) :
    s ∈ normalizeSensor raws ↔
      ∃ r ∈ raws, r.time = some s.time ∧ r.temp = s.temp ∧ r.gas = s.gas := by
  unfold normalizeSensor
  rw [(sortByTime_perm _).mem_iff, List.mem_filterMap]
  constructor
  · rintro ⟨r, hr, hf⟩
    rw [Option.map_eq_some'] at hf
    obtain ⟨t, ht, he⟩ := hf
    refine ⟨r, hr, ?_, ?_, ?_⟩ <;> simp [← he, ht]
  · rintro ⟨r, hr, ht, htemp, hgas⟩
    refine ⟨r, hr, ?_⟩
    rw [Option.map_eq_some']
    exact ⟨s.time, ht, by rw [htemp, hgas]⟩

/-- Inversion of a `stepResult` that appended a result row. -/
theorem stepResult_some (prod : List ProdRec) (sensor : List Sample) (target : ℚ) (d : ℕ)
    (r : Result) (h : stepResult prod sensor target d = .ok (some r)) :
    ∃ c p eg sg,
      analyze_cycle (windowOf sensor d) = .ok c ∧
      prod.find? (fun q => q.date == d) = some p ∧
      ¬ p.weight ≤ 0 ∧ c.endS.gas = some eg ∧ c.startS.gas = some sg ∧ ¬ eg - sg ≤ 0 ∧
      r = ⟨d, c.startS.time, sg, c.endS.time, eg, eg - sg, p.weight,
            (eg - sg) / (p.weight / 1000), decide ((eg - sg) / (p.weight / 1000) ≤ target),
            c.holdingEnd⟩ := by
  simp only [stepResult, evalCycle] at h
  split at h
  · simp at h
  · split at h
    · simp at h
    · rename_i c hc
      split at h
      · simp at h
      · rename_i p hp
        split at h
        · simp at h
        · rename_i hw
          split at h
          · rename_i eg sg heg hsg
            split at h
            · simp at h
            · rename_i hg
              simp only [Except.ok.injEq, Option.some.injEq] at h
              exact ⟨c, p, eg, sg, hc, hp, hw, heg, hsg, hg, h.symm⟩
          · simp at h

/-- A per-date failure of the cycle detector makes the iteration a silent
skip, whatever the failure reason was. -/
theorem stepResult_of_error (prod : List ProdRec) (sensor : List Sample) (target : ℚ)
    (d : ℕ) (e : CycleErr) (h : analyze_cycle (windowOf sensor d) = .error e) :
    stepResult prod sensor target d = .ok none := by
  simp only [stepResult]
  split
  · rfl
  · rw [h]

/-- Every row of a successful loop comes from one of the dates. -/
theorem processDates_mem (prod : List ProdRec) (sensor : List Sample) (target : ℚ) :
    ∀ (dates : List ℕ) (rs : List Result),
      processDates prod sensor target dates = .ok rs →
      ∀ r ∈ rs, ∃ d ∈ dates, stepResult prod sensor target d = .ok (some r)
  | [], rs, h => by
    simp only [processDates, Except.ok.injEq] at h
    subst h
    simp
  | d :: ds, rs, h => by
    intro r hr
    simp only [processDates] at h
    split at h
    · simp at h
    · obtain ⟨d', hd', hs'⟩ := processDates_mem prod sensor target ds rs h r hr
      exact ⟨d', List.mem_cons_of_mem _ hd', hs'⟩
    · rename_i r' hr'
      cases hrec : processDates prod sensor target ds <;> rw [hrec] at h
      · simp [Except.map] at h
      · rename_i rs'
        simp only [Except.map, Except.ok.injEq] at h
        subst h
        rcases List.mem_cons.mp hr with h1 | h1
        · exact ⟨d, List.mem_cons_self .., h1 ▸ hr'⟩
        · obtain ⟨d', hd', hs'⟩ := processDates_mem prod sensor target ds rs' hrec r h1
          exact ⟨d', List.mem_cons_of_mem _ hd', hs'⟩

theorem mem_windowOf (sensor : List Sample) (d : ℕ) (s : Sample) :
    s ∈ windowOf sensor d ↔ s ∈ sensor ∧ d * 1440 ≤ s.time ∧ s.time < (d + 2) * 1440 := by
  unfold windowOf
  rw [List.mem_filter]
  simp [and_assoc]

theorem windowOf_subset {sensor : List Sample} {d : ℕ} {s : Sample}
    (h : s ∈ windowOf sensor d) : s ∈ sensor :=
  ((mem_windowOf sensor d s).mp h).1

theorem evalCycle_no_error (c : Cycle) (p : ProdRec) (target : ℚ) (d : ℕ)
    (eg sg : ℚ) (heg : c.endS.gas = some eg) (hsg : c.startS.gas = some sg) :
    ∃ o, evalCycle c p target d = .ok o := by
  by_cases hw : p.weight ≤ 0
  · exact ⟨none, by simp [evalCycle, hw]⟩
  · by_cases hgas : eg - sg ≤ 0
    · exact ⟨none, by simp [evalCycle, hw, heg, hsg, hgas]⟩
    · refine ⟨some ⟨d, c.startS.time, sg, c.endS.time, eg, eg - sg, p.weight,
        (eg - sg) / (p.weight / 1000), decide ((eg - sg) / (p.weight / 1000) ≤ target),
        c.holdingEnd⟩, ?_⟩
      simp [evalCycle, hw, heg, hsg, hgas]

/-- When the date has a production record and no sensor row in scope has a
null gas reading, one loop iteration cannot raise. -/
theorem stepResult_no_error (prod : List ProdRec) (sensor : List Sample) (target : ℚ)
    (d : ℕ) (hp : ∃ p ∈ prod, p.date = d) (hg : ∀ s ∈ sensor, s.gas ≠ none) :
    ∃ o, stepResult prod sensor target d = .ok o := by
  simp only [stepResult]
  split
  · exact ⟨none, rfl⟩
  · cases hc : analyze_cycle (windowOf sensor d)
    · exact ⟨none, rfl⟩
    · rename_i c
      obtain ⟨p, hpm, hpd⟩ := hp
      have hiso : (prod.find? (fun q => q.date == d)).isSome :=
        List.find?_isSome.mpr ⟨p, hpm, by simp [hpd]⟩
      cases hf : prod.find? (fun q => q.date == d)
      · rw [hf] at hiso
        simp at hiso
      · rename_i p'
        obtain ⟨hs, hh, he⟩ := analyze_cycle_ok _ _ hc
        have hsmem : c.startS ∈ sensor := windowOf_subset (startSample_mem hs).1
        have hemem : c.endS ∈ sensor := windowOf_subset (endSample_mem he).1
        obtain ⟨sg, hsg⟩ := Option.ne_none_iff_exists'.mp (hg _ hsmem)
        obtain ⟨eg, heg⟩ := Option.ne_none_iff_exists'.mp (hg _ hemem)
        obtain ⟨o, ho⟩ := evalCycle_no_error c p' target d eg sg heg hsg
        exact ⟨o, ho⟩

theorem processDates_no_error (prod : List ProdRec) (sensor : List Sample) (target : ℚ) :
    ∀ (dates : List ℕ),
      (∀ d ∈ dates, ∃ p ∈ prod, p.date = d) →
      (∀ s ∈ sensor, s.gas ≠ none) →
      ∃ rs, processDates prod sensor target dates = .ok rs
  | [], _, _ => ⟨[], rfl⟩
  | d :: ds, hp, hg => by
    obtain ⟨o, ho⟩ := stepResult_no_error prod sensor target d
      (hp d (List.mem_cons_self ..)) hg
    obtain ⟨rs, hrs⟩ := processDates_no_error prod sensor target ds
      (fun d' hd' => hp d' (List.mem_cons_of_mem _ hd')) hg
    cases o
    · refine ⟨rs, ?_⟩
      simp only [processDates]
      rw [ho]
      show processDates prod sensor target ds = .ok rs
      exact hrs
    · rename_i r
      refine ⟨r :: rs, ?_⟩
      simp only [processDates]
      rw [ho]
      show (processDates prod sensor target ds).map (fun rs => r :: rs) = .ok (r :: rs)
      rw [hrs]
      rfl

theorem windowOf_pairwise {sensor : List Sample} {d : ℕ} (hs : sensor.Pairwise timeLE) :
    (windowOf sensor d).Pairwise timeLE :=
  List.Pairwise.filter _ hs

/-! ## Claim theorems -/

/-- C9: the Date Matcher returns exactly the ascending sorted intersection
of the distinct calendar dates of the production records and the distinct
calendar dates of the sensor timestamps (local date component), without
duplicates; its size is at most the minimum of the two distinct-date
counts.  It is a pure function of its two inputs. -/
theorem date_matcher_spec (prod : List ProdRec) (sensor : List Sample) :
    (commonDates prod sensor).Pairwise (· ≤ ·) ∧
    (commonDates prod sensor).Nodup ∧
    (∀ d, d ∈ commonDates prod sensor ↔
        (∃ p ∈ prod, p.date = d) ∧ ∃ s ∈ sensor, sampleDate s = d) ∧
    (commonDates prod sensor).length ≤
      min (prodDates prod).card (sensorDates sensor).card :=
  ⟨commonDates_sorted prod sensor, commonDates_nodup prod sensor,
    commonDates_mem prod sensor, commonDates_length prod sensor⟩

/-- C2: the detection window of an anchor date `d` holds exactly the
sensor samples with timestamp in `[d 00:00, d+2 days)`; the start sample
is the first sample of the window, in timestamp order, whose temperature
is at most 600 (inclusive); when no window sample is at most 600 the
detection fails with the no-start reason. -/
theorem start_detection_spec (sensor : List Sample) (d : ℕ)
    (hs : sensor.Pairwise timeLE) :
    (∀ t v g, tempLE ⟨t, some v, g⟩ 600 = true ↔ v ≤ 600) ∧
    (∀ s, s ∈ windowOf sensor d ↔
        s ∈ sensor ∧ d * 1440 ≤ s.time ∧ s.time < (d + 2) * 1440) ∧
    (startSample (windowOf sensor d) = none ↔
        ∀ s ∈ windowOf sensor d, tempLE s 600 = false) ∧
    (analyze_cycle (windowOf sensor d) = .error CycleErr.noStart ↔
        startSample (windowOf sensor d) = none) ∧
    (∀ s0, startSample (windowOf sensor d) = some s0 →
        s0 ∈ windowOf sensor d ∧ tempLE s0 600 = true ∧
          ∀ s ∈ windowOf sensor d, tempLE s 600 = true → s0.time ≤ s.time) ∧
    (∀ c, analyze_cycle (windowOf sensor d) = .ok c →
        startSample (windowOf sensor d) = some c.startS) := by
  refine ⟨?_, mem_windowOf sensor d, ?_, analyze_noStart_iff _, ?_, ?_⟩
  · intro t v g
    simp [tempLE]
  · unfold startSample
    rw [List.head?_eq_none_iff, List.filter_eq_nil_iff]
    simp
  · intro s0 h
    exact filter_head_min _ _ (windowOf_pairwise hs) s0 h
  · intro c hc
    exact (analyze_cycle_ok _ _ hc).1

/-- C3: on a sorted series in which a start sample and a holding interval
were found, the cycle end sample is the first sample strictly after the
holding end time whose temperature is at most 900 (inclusive); when no
such sample exists the detection fails with the no-end reason. -/
theorem end_detection_spec (l : List Sample) (hs : l.Pairwise timeLE) :
    (∀ t v g, tempLE ⟨t, some v, g⟩ 900 = true ↔ v ≤ 900) ∧
    (∀ c, analyze_cycle l = .ok c →
        c.endS ∈ l ∧ c.holdingEnd < c.endS.time ∧ tempLE c.endS 900 = true ∧
          ∀ s ∈ l, c.holdingEnd < s.time → tempLE s 900 = true → c.endS.time ≤ s.time) ∧
    (∀ s hv, startSample l = some s → holdingEndTime l s.time = some hv →
        (analyze_cycle l = .error CycleErr.noEnd ↔
          ∀ x ∈ l, hv < x.time → tempLE x 900 = false)) := by
  refine ⟨?_, ?_, ?_⟩
  · intro t v g
    simp [tempLE]
  · intro c hc
    obtain ⟨_, _, he⟩ := analyze_cycle_ok _ _ hc
    unfold endSample at he
    have hmin := filter_head_min (fun s => tempLE s 900)
      (l.filter (fun s => decide (c.holdingEnd < s.time)))
      (List.Pairwise.filter _ hs) c.endS he
    obtain ⟨hm, hq, hmin⟩ := hmin
    obtain ⟨hml, hmt⟩ := List.mem_filter.mp hm
    refine ⟨hml, by simpa using hmt, hq, ?_⟩
    intro s hsl hst hq9
    exact hmin s (List.mem_filter.mpr ⟨hsl, by simpa using hst⟩) hq9
  · intro s hv hstart hhold
    rw [analyze_noEnd_iff l s hv hstart hhold]
    unfold endSample
    rw [List.head?_eq_none_iff, List.filter_eq_nil_iff]
    constructor
    · intro h x hx ht
      simpa using h x (List.mem_filter.mpr ⟨hx, by simpa using ht⟩)
    · intro h x hx
      obtain ⟨hxl, hxt⟩ := List.mem_filter.mp hx
      simp [h x hxl (by simpa using hxt)]

/-- C1: on a sorted detection series, the samples strictly after the start
time are classified in-band iff their temperature lies in the closed range
[1230, 1270]; the boolean series is partitioned into maximal runs ordered
by time (nonempty, constant classification, adjacent runs differing); the
first run that is in-band and whose wall-clock span (last sample time
minus first sample time of the run) is at least ten hours is accepted,
the holding end being that run's last sample time; later qualifying runs
are ignored; when no run qualifies, detection fails with the
no-sustained-holding-interval reason. -/
theorem holding_plateau_spec (l : List Sample) (t : ℕ) (hs : l.Pairwise timeLE) :
    (∀ s : Sample, isHolding s = true ↔ ∃ v, s.temp = some v ∧ 1230 ≤ v ∧ v ≤ 1270) ∧
    (∀ s, s ∈ postStart l t ↔ s ∈ l ∧ t < s.time) ∧
    (groupRuns isHolding (postStart l t)).flatten = postStart l t ∧
    (∀ r ∈ groupRuns isHolding (postStart l t), r ≠ [] ∧
        (∀ x ∈ r, ∀ y ∈ r, isHolding x = isHolding y) ∧
        runLastTime r = lastTimeOf r ∧ runSpan r = lastTimeOf r - firstTimeOf r) ∧
    List.Chain' (fun r r' => runInBand r ≠ runInBand r')
      (groupRuns isHolding (postStart l t)) ∧
    (∀ r, runQualifies r = true ↔ runInBand r = true ∧ 600 ≤ runSpan r) ∧
    (∀ h, holdingEndTime l t = some h ↔
        ∃ pre r post, groupRuns isHolding (postStart l t) = pre ++ r :: post ∧
          runQualifies r = true ∧ (∀ r' ∈ pre, runQualifies r' = false) ∧
          h = runLastTime r) ∧
    (holdingEndTime l t = none ↔
        ∀ r ∈ groupRuns isHolding (postStart l t), runQualifies r = false) ∧
    (∀ s, startSample l = some s → holdingEndTime l s.time = none →
        analyze_cycle l = .error CycleErr.noHolding) ∧
    (∀ c, analyze_cycle l = .ok c →
        holdingEndTime l c.startS.time = some c.holdingEnd) := by
  have hps : (postStart l t).Pairwise timeLE := List.Pairwise.filter _ hs
  refine ⟨?_, ?_, groupRuns_flatten _ _, ?_, groupRuns_chain _ _, ?_, ?_, ?_, ?_, ?_⟩
  · intro s
    cases ht : s.temp <;> simp [isHolding, ht]
  · intro s
    unfold postStart
    rw [List.mem_filter]
    simp
  · intro r hr
    have hne := groupRuns_ne_nil _ _ r hr
    have hrp := groupRuns_pairwise _ _ hps r hr
    refine ⟨hne, ?_, ?_, ?_⟩
    · intro x hx y hy
      rw [groupRuns_head_eq _ _ r hr x hx, groupRuns_head_eq _ _ r hr y hy]
    · exact listMax_eq_lastTimeOf r hne hrp
    · unfold runSpan
      rw [listMax_eq_lastTimeOf r hne hrp, listMin_eq_firstTimeOf r hne hrp]
  · intro r
    unfold runQualifies
    simp
  · intro h
    unfold holdingEndTime
    rw [findHoldingEnd_eq, Option.map_eq_some']
    constructor
    · rintro ⟨r, hfind, hlast⟩
      obtain ⟨hq, as, bs, heq, hpre⟩ := List.find?_eq_some.mp hfind
      exact ⟨as, r, bs, heq, hq, fun r' hr' => by simpa using hpre r' hr', hlast.symm⟩
    · rintro ⟨pre, r, post, heq, hq, hpre, hh⟩
      refine ⟨r, List.find?_eq_some.mpr ⟨hq, pre, post, heq, ?_⟩, hh.symm⟩
      intro a ha
      simp [hpre a ha]
  · unfold holdingEndTime
    rw [findHoldingEnd_eq, Option.map_eq_none', List.find?_eq_none]
    constructor
    · intro h r hr
      simpa using h r hr
    · intro h r hr
      simp [h r hr]
  · intro s hstart hnone
    exact (analyze_noHolding_iff l s hstart).mpr hnone
  · intro c hc
    exact (analyze_cycle_ok l c hc).2.1

theorem find?_first_skip (p : α → Bool) : ∀ (l1 : List α) (x : α) (l2 : List α),
    (∀ a ∈ l1, p a = false) → p x = true → (l1 ++ x :: l2).find? p = some x
  | [], x, l2, _, hx => by
    rw [List.nil_append, List.find?_cons_of_pos _ hx]
  | a :: l1, x, l2, hall, hx => by
    rw [List.cons_append, List.find?_cons_of_neg]
    · exact find?_first_skip p l1 x l2 (fun b hb => hall b (List.mem_cons_of_mem _ hb)) hx
    · simp [hall a (List.mem_cons_self ..)]

/-- C4: every accepted result row has `gas_used` equal to the end minus the
start meter reading, strictly positive (hence the end reading exceeds the
start reading), a strictly positive charge weight, `unit_cost` equal to
`gas_used / (charge_kg / 1000)`, and verdict Pass iff
`unit_cost ≤ target` (inclusive); a date whose detected cycle has a
non-positive gas delta contributes no result row at all — it is rejected,
not corrected or clamped. -/
theorem unit_cost_evaluation (prod : List ProdRec) (sensor : List Sample) (target : ℚ)
    (dates : List ℕ) (rs : List Result)
    (h : processDates prod sensor target dates = .ok rs) :
    (∀ r ∈ rs,
        r.gasUsed = r.endGas - r.startGas ∧ 0 < r.gasUsed ∧ r.startGas < r.endGas ∧
        0 < r.chargeKg ∧ r.unitCost = r.gasUsed / (r.chargeKg / 1000) ∧
        (r.verdict = true ↔ r.unitCost ≤ target)) ∧
    (∀ d c eg sg, analyze_cycle (windowOf sensor d) = .ok c →
        c.endS.gas = some eg → c.startS.gas = some sg → eg - sg ≤ 0 →
        ∀ r ∈ rs, r.date ≠ d) := by
  constructor
  · intro r hr
    obtain ⟨d, _, hstep⟩ := processDates_mem prod sensor target dates rs h r hr
    obtain ⟨c, p, eg, sg, _, _, hw, _, _, hg, hrec⟩ :=
      stepResult_some prod sensor target d r hstep
    subst hrec
    refine ⟨rfl, ?_, ?_, ?_, rfl, ?_⟩
    · simpa using lt_of_not_le hg
    · simpa [sub_pos] using lt_of_not_le hg
    · exact lt_of_not_le hw
    · simp
  · intro d c eg sg hc heg hsg hle r hr hdate
    obtain ⟨d', hd', hstep⟩ := processDates_mem prod sensor target dates rs h r hr
    obtain ⟨c', p, eg', sg', hc', _, _, heg', hsg', hg', hrec⟩ :=
      stepResult_some prod sensor target d' r hstep
    have hdd : d' = d := by rw [← hdate, hrec]
    subst hdd
    have hcc : c' = c := by
      have := hc'.symm.trans hc
      simpa using this
    subst hcc
    rw [heg] at heg'
    rw [hsg] at hsg'
    simp only [Option.some.injEq] at heg' hsg'
    subst heg'
    subst hsg'
    exact hg' hle

/-- C10: when several production records share the same calendar date, the
charge weight of the first such record in post-normalization input order
is the one used for that date's unit-cost computation; later duplicate
records never influence the result. -/
theorem duplicate_first_record_wins (prod1 prod2 : List ProdRec) (p : ProdRec)
    (sensor : List Sample) (target : ℚ) (dates : List ℕ) (rs : List Result)
    (hfirst : ∀ q ∈ prod1, q.date ≠ p.date)
    (h : processDates (prod1 ++ p :: prod2) sensor target dates = .ok rs) :
    ∀ r ∈ rs, r.date = p.date → r.chargeKg = p.weight := by
  intro r hr hdate
  obtain ⟨d, hd, hstep⟩ := processDates_mem _ sensor target dates rs h r hr
  obtain ⟨c, p', eg, sg, _, hfind, _, _, _, _, hrec⟩ :=
    stepResult_some _ sensor target d r hstep
  have hdd : d = p.date := by rw [← hdate, hrec]
  subst hdd
  have hfind2 : (prod1 ++ p :: prod2).find? (fun q => q.date == p.date) = some p :=
    find?_first_skip _ prod1 p prod2 (fun a ha => by simp [hfirst a ha]) (by simp)
  rw [hfind2] at hfind
  simp only [Option.some.injEq] at hfind
  rw [hrec, ← hfind]

/-- C5 is false on the code: normalization (line 129) drops only rows with
a null timestamp, so the null-temperature sample at minute 360 stays in
the series; it splits the holding plateau into two sub-ten-hour runs and
detection fails, while the same series with null samples removed yields a
full cycle. -/
theorem null_exclusion_cex :
    normalizeSensor rawNullTemp = [⟨360, none, some 2⟩] ∧
    analyze_cycle sWithNull = .error CycleErr.noHolding ∧
    sNoNull = sWithNull.filter (fun s => s.temp.isSome && s.gas.isSome) ∧
    analyze_cycle sNoNull =
      .ok ⟨⟨0, some 500, some 0⟩, ⟨800, some 850, some 4⟩, 720⟩ :=
  ⟨by decide, by decide, rfl, by decide⟩

/-- C5 (amended): normalization keeps exactly the rows whose timestamp is
present — samples with a null temperature or gas reading are retained in
the sensor series, not excluded; a null temperature fails every threshold
comparison (never in-band, never a start or end candidate), so detection
over a series containing such samples can differ from detection over the
series with them removed. -/
theorem null_sample_retention :
    (∀ (raws : List RawSample) (s : Sample), s ∈ normalizeSensor raws ↔
        ∃ r ∈ raws, r.time = some s.time ∧ r.temp = s.temp ∧ r.gas = s.gas) ∧
    (∀ t g c, tempLE ⟨t, none, g⟩ c = false) ∧
    (∀ t g, isHolding ⟨t, none, g⟩ = false) :=
  ⟨fun raws s => mem_normalizeSensor raws s, fun _ _ _ => rfl, fun _ _ => rfl⟩

/-- C6 is false on the code: a date with a complete detected cycle whose
start sample has a null gas reading gives a `NaN` gas delta; `NaN <= 0`
is false, so the rejection branch is skipped and `int(gas_used)` raises a
`ValueError` that escapes `process_data`. -/
theorem raise_on_null_gas_cex :
    process_data prodA filesNullGas 25 = ProcOutcome.raised RunErr.nanToInt := by
  decide

/-- C6 (amended): per-date detection failures, empty windows, non-positive
charge weights and non-positive gas deltas only exclude their own date,
and when every uploaded sensor row carries a gas reading the engine
returns an outcome without raising; the guarantee needs that hypothesis,
because a detected cycle whose boundary sample has a null gas reading
makes the loop raise past the engine boundary. -/
theorem no_raise_when_gas_present (prod : List ProdRec) (files : List (List RawSample))
    (target : ℚ) (hg : ∀ f ∈ files, ∀ r ∈ f, r.gas ≠ none) :
    ∀ e, process_data prod files target ≠ ProcOutcome.raised e := by
  intro e hcontra
  simp only [process_data] at hcontra
  split at hcontra
  · simp at hcontra
  · split at hcontra
    · simp at hcontra
    · have hdates : ∀ d ∈ commonDates prod (normalizeSensor files.flatten),
          ∃ p ∈ prod, p.date = d := fun d hd =>
        ((commonDates_mem prod (normalizeSensor files.flatten) d).mp hd).1
      have hgas : ∀ s ∈ normalizeSensor files.flatten, s.gas ≠ none := by
        intro s hsmem
        obtain ⟨r, hrmem, _, _, hgasr⟩ :=
          (mem_normalizeSensor files.flatten s).mp hsmem
        obtain ⟨f, hf, hrf⟩ := List.mem_flatten.mp hrmem
        rw [← hgasr]
        exact hg f hf r hrf
      obtain ⟨rs, hrs⟩ := processDates_no_error prod (normalizeSensor files.flatten)
        target (commonDates prod (normalizeSensor files.flatten)) hdates hgas
      rw [hrs] at hcontra
      simp at hcontra

theorem no_raise_when_gas_present_witness :
    process_data prodA filesGood 3000 ≠ ProcOutcome.raised RunErr.nanToInt :=
  no_raise_when_gas_present prodA filesGood 3000 (by decide) RunErr.nanToInt

/-- C7 is false on the code: two runs whose only candidate date fails for
two different reasons (a sub-ten-hour plateau vs no start temperature)
both return a zero-row result table plus the sensor passthrough; the
specific per-date reasons produced by the detector are discarded and
nothing in the output records any rejection reason. -/
theorem reasons_discarded_cex :
    analyze_cycle (windowOf (normalizeSensor filesShortHold.flatten) 0) =
      .error CycleErr.noHolding ∧
    analyze_cycle (windowOf (normalizeSensor filesNoStart.flatten) 0) =
      .error CycleErr.noStart ∧
    process_data prodA filesShortHold 25 =
      ProcOutcome.ok [] (normalizeSensor filesShortHold.flatten) ∧
    process_data prodA filesNoStart 25 =
      ProcOutcome.ok [] (normalizeSensor filesNoStart.flatten) :=
  ⟨by decide, by decide, by decide, by decide⟩

/-- C7 (amended): the cycle detector does produce a specific reason for
every failed date, but the orchestrator drops it — a date whose detection
fails is skipped identically whatever the reason, and no reason is
aggregated into or surfaced with the output. -/
theorem failed_date_skipped_uniformly (prod : List ProdRec) (sensor : List Sample)
    (target : ℚ) (d : ℕ) (ds : List ℕ) (e : CycleErr)
    (h : analyze_cycle (windowOf sensor d) = .error e) :
    processDates prod sensor target (d :: ds) = processDates prod sensor target ds := by
  have hstep := stepResult_of_error prod sensor target d e h
  simp only [processDates]
  rw [hstep]

theorem failed_date_skipped_uniformly_witness :
    processDates prodA sShortHold 25 [0] = processDates prodA sShortHold 25 [] :=
  failed_date_skipped_uniformly prodA sShortHold 25 0 [] CycleErr.noHolding (by decide)

/-- C8 is false on the code: two empty-join runs with different date
cardinalities (1 production date and 1 sensor date, vs 2 production dates
and 3 sensor dates) produce the identical fixed outcome — the generic
"날짜 매칭 실패" failure, which carries no cardinality information. -/
theorem empty_join_no_counts_cex :
    (prodDates prodA).card = 1 ∧
    (sensorDates (normalizeSensor filesDay5.flatten)).card = 1 ∧
    (prodDates prodTwo).card = 2 ∧
    (sensorDates (normalizeSensor filesThreeDays.flatten)).card = 3 ∧
    process_data prodA filesDay5 25 = ProcOutcome.failNoDateMatch ∧
    process_data prodTwo filesThreeDays 25 = ProcOutcome.failNoDateMatch :=
  ⟨by decide, by decide, by decide, by decide, by decide, by decide⟩

/-- C8 (amended): whenever sensor files are present but the intersection
of production and sensor dates is empty, the engine returns the empty
outcome with the fixed generic date-match-failure diagnostic — no
cardinalities are reported. -/
theorem empty_join_fixed_diagnostic (prod : List ProdRec) (files : List (List RawSample))
    (target : ℚ) (hne : files.isEmpty = false)
    (hempty : commonDates prod (normalizeSensor files.flatten) = []) :
    process_data prod files target = ProcOutcome.failNoDateMatch := by
  simp [process_data, hne, hempty]

theorem empty_join_fixed_diagnostic_witness :
    process_data prodA filesDay5 30 = ProcOutcome.failNoDateMatch :=
  empty_join_fixed_diagnostic prodA filesDay5 30 (by decide) (by decide)

theorem holding_plateau_spec_witness :
    analyze_cycle sShortHold = .error CycleErr.noHolding :=
  (holding_plateau_spec sShortHold 0 (by decide)).2.2.2.2.2.2.2.2.1
    ⟨0, some 500, some 0⟩ (by decide) (by decide)

theorem start_detection_spec_witness :
    analyze_cycle (windowOf sNoStart 0) = .error CycleErr.noStart :=
  ((start_detection_spec sNoStart 0 (by decide)).2.2.2.1).mpr (by decide)

theorem end_detection_spec_witness :
    cycGood.endS ∈ sensorGood ∧ cycGood.holdingEnd < cycGood.endS.time ∧
      tempLE cycGood.endS 900 = true :=
  have h := (end_detection_spec sensorGood (by decide)).2.1 cycGood (by decide)
  ⟨h.1, h.2.1, h.2.2.1⟩

theorem unit_cost_evaluation_witness :
    resGood.gasUsed = resGood.endGas - resGood.startGas ∧ 0 < resGood.gasUsed ∧
      resGood.startGas < resGood.endGas :=
  have h := (unit_cost_evaluation prodA sensorGood 3000 [0] [resGood] (by decide)).1
    resGood (by decide)
  ⟨h.1, h.2.1, h.2.2.1⟩

theorem duplicate_first_record_wins_witness : resDup.chargeKg = (2000 : ℚ) :=
  duplicate_first_record_wins [] [⟨0, 500⟩] ⟨0, 2000⟩ sensorGood 3000 [0] [resDup]
    (by simp) (by decide) resDup (by decide) rfl

end Press
